import Mathlib

/-!
Shallow embedding of `src/sc_client/client/_resonse_processor.py`:
the response-decoding layer of the sc-client protocol client.

Python dynamic values are modelled by the JSON-like `ScValue`; a response
envelope is `Response` (`{status, payload}` per the wire contract); Python
runtime exceptions raised while navigating a payload are modelled by
`Except DecodeError`.
-/

deriving instance DecidableEq for Except

/-- A JSON-like dynamic value, as produced by decoding a wire payload. -/
inductive ScValue where
  | null
  | bool (b : Bool)
  | int (n : Int)
  | str (s : String)
  | list (xs : List ScValue)
  | dict (fields : List (String × ScValue))
deriving Repr

mutual

/-- Structural equality on dynamic values (Python `==` on decoded JSON data). -/
def ScValue.beq : ScValue → ScValue → Bool
  | .null, .null => true
  | .bool a, .bool b => a == b
  | .int a, .int b => a == b
  | .str a, .str b => a == b
  | .list xs, .list ys => ScValue.beqList xs ys
  | .dict fs, .dict gs => ScValue.beqFields fs gs
  | _, _ => false

def ScValue.beqList : List ScValue → List ScValue → Bool
  | [], [] => true
  | x :: xs, y :: ys => ScValue.beq x y && ScValue.beqList xs ys
  | _, _ => false

def ScValue.beqFields : List (String × ScValue) → List (String × ScValue) → Bool
  | [], [] => true
  | (k, v) :: fs, (l, w) :: gs => k == l && (ScValue.beq v w && ScValue.beqFields fs gs)
  | _, _ => false

end

mutual

theorem ScValue.beq_iff : ∀ (a b : ScValue), ScValue.beq a b = true ↔ a = b
  | .null, b => by cases b <;> simp [ScValue.beq]
  | .bool a, b => by cases b <;> simp [ScValue.beq]
  | .int a, b => by cases b <;> simp [ScValue.beq]
  | .str a, b => by cases b <;> simp [ScValue.beq]
  | .list xs, b => by
      cases b <;> simp [ScValue.beq]
      rw [ScValue.beqList_iff]
  | .dict fs, b => by
      cases b <;> simp [ScValue.beq]
      rw [ScValue.beqFields_iff]

theorem ScValue.beqList_iff : ∀ (xs ys : List ScValue),
    ScValue.beqList xs ys = true ↔ xs = ys
  | [], ys => by cases ys <;> simp [ScValue.beqList]
  | x :: xs, ys => by
      cases ys with
      | nil => simp [ScValue.beqList]
      | cons y ys =>
          simp [ScValue.beqList]
          rw [ScValue.beq_iff, ScValue.beqList_iff]

theorem ScValue.beqFields_iff : ∀ (fs gs : List (String × ScValue)),
    ScValue.beqFields fs gs = true ↔ fs = gs
  | [], gs => by cases gs <;> simp [ScValue.beqFields]
  | (k, v) :: fs, gs => by
      cases gs with
      | nil => simp [ScValue.beqFields]
      | cons g gs =>
          obtain ⟨l, w⟩ := g
          simp [ScValue.beqFields]
          rw [ScValue.beq_iff, ScValue.beqFields_iff]
          tauto

end

instance : DecidableEq ScValue := fun a b =>
  decidable_of_iff (ScValue.beq a b = true) (ScValue.beq_iff a b)

/-- Python truthiness of an `ScValue` (`if response_payload:`). -/
def ScValue.truthy : ScValue → Bool
  | .null => false
  | .bool b => b
  | .int n => n != 0
  | .str s => s.length != 0
  | .list xs => !xs.isEmpty
  | .dict fs => !fs.isEmpty

/-- Python truthiness of an optional value (`dict.get` returns `None` when absent). -/
def optTruthy : Option ScValue → Bool
  | none => false
  | some v => v.truthy

/-- The response envelope: `{ status: boolean, payload: optional structured value }`.
`response.get(common.STATUS)` is `status`; `response.get(common.PAYLOAD)` is `payload`. -/
structure Response where
  status : Bool
  payload : Option ScValue
deriving Repr, DecidableEq

/-- Python runtime errors raised by the decoders while navigating a payload. -/
inductive DecodeError where
  | typeError
  | indexError
  | keyError
  | attributeError
deriving Repr, DecidableEq

/-- First-match association lookup, as Python `dict.get(key)` on a decoded JSON object. -/
def lookupField : List (String × ScValue) → String → Option ScValue
  | [], _ => none
  | (k, v) :: rest, key => if k = key then some v else lookupField rest key

/-- Python `for x in v`: iterating a decoded value. Lists yield elements, strings yield
one-character strings, dicts yield their keys; other values raise `TypeError`. -/
def iterateV : ScValue → Except DecodeError (List ScValue)
  | .list xs => .ok xs
  | .str s => .ok (s.data.map (fun c => .str (String.singleton c)))
  | .dict fs => .ok (fs.map (fun p => .str p.1))
  | _ => .error .typeError

/-- Python `for x in v` on an optional value: iterating `None` raises `TypeError`. -/
def iterateOpt : Option ScValue → Except DecodeError (List ScValue)
  | none => .error .typeError
  | some v => iterateV v

/-- Python `v[i]` for a natural index on an optional value: lists and strings index
positionally (out of range raises `IndexError`), dicts raise `KeyError` for an integer
key (wire objects have string keys), `None` and scalars raise `TypeError`. -/
def subscriptOpt (p : Option ScValue) (i : Nat) : Except DecodeError ScValue :=
  match p with
  | some (.list xs) =>
      if h : i < xs.length then .ok (xs.get ⟨i, h⟩) else .error .indexError
  | some (.str s) =>
      if h : i < s.data.length then .ok (.str (String.singleton (s.data.get ⟨i, h⟩)))
      else .error .indexError
  | some (.dict _) => .error .keyError
  | _ => .error .typeError

/-- Python `v.get(key)` on an `ScValue`: only dicts have `.get`; anything else
raises `AttributeError`. Returns `none` when the key is absent. -/
def dictGet (v : ScValue) (k : String) : Except DecodeError (Option ScValue) :=
  match v with
  | .dict fs => .ok (lookupField fs k)
  | _ => .error .attributeError

/-- Python `v.get(key)` on an optional value (`None.get` raises `AttributeError`). -/
def dictGetOpt (v : Option ScValue) (k : String) : Except DecodeError (Option ScValue) :=
  match v with
  | some w => dictGet w k
  | none => .error .attributeError

/-- A Python list comprehension whose body may raise: build the output list element
by element, propagating the first raised error. -/
def mapE (f : α → Except ε β) : List α → Except ε (List β)
  | [] => .ok []
  | x :: xs => do
    let y ← f x
    let ys ← mapE f xs
    pure (y :: ys)

namespace common

/-- Modelled from the spec: wire field/tag names from `sc_client.constants.common`
(module not under `src/`); spec (§6) fixes the field names `status, payload, type,
value, aliases, addrs` and (§8) the content tags `string, int, binary, float`. -/
def TYPE : String := "type"

def VALUE : String := "value"

def ALIASES : String := "aliases"

def ADDRS : String := "addrs"

def STRING : String := "string"

def INT : String := "int"

def BINARY : String := "binary"

def FLOAT : String := "float"

end common

/-- Element Address: wraps the raw value taken from the payload
(`ScAddr(addr_value)` stores its argument). -/
structure ScAddr where
  value : ScValue
deriving Repr, DecidableEq

/-- Element Type: wraps the raw type code taken from the payload
(`ScType(type_value)` stores its argument). -/
structure ScType where
  value : ScValue
deriving Repr, DecidableEq

/-- Modelled from the spec: `ScLinkContentType` from `sc_client.models` (module not
under `src/`). Spec §3: content kind is `enum{STRING,INT,BINARY,FLOAT}` in decoded
form, and unknown tags decode to a sentinel "undefined" kind (the code's literal `0`). -/
inductive ScLinkContentType where
  | undefined
  | string
  | int
  | binary
  | float
deriving Repr, DecidableEq

/-- Modelled from the spec: `ScLinkContent` from `sc_client.models` (module not under
`src/`). Spec §3: `{ value, content_kind }`; the constructor stores the payload's
`value` field untransformed (it may be absent, hence `Option`). -/
structure ScLinkContent where
  value : Option ScValue
  content_type : ScLinkContentType
deriving Repr, DecidableEq

/-- Modelled from the spec: `ScTemplateResult` from `sc_client.models` (module not
under `src/`). Spec §3: `{ addresses, aliases }`; the aliases mapping is stored as
taken from the payload (possibly absent). -/
structure ScTemplateResult where
  addrs : List ScAddr
  aliases : Option ScValue
deriving Repr, DecidableEq

/-- Modelled from the spec: `ScEvent` from `sc_client.models` (module not under
`src/`). Spec §3: `{ id, event_type, callback }`. The decoding layer only copies
`event_type` and `callback` from the request descriptor into the new subscription,
never inspecting them, so both are opaque tokens here; `id` is the raw
server-assigned identifier taken from the payload. -/
structure ScEvent where
  id : ScValue
  event_type : Nat
  callback : Nat
deriving Repr, DecidableEq

/-- Modelled from the spec: the process-wide event registry owned by `sc_client.session`
(module not under `src/`). Spec §5/§6: "a process-wide map keyed by server-assigned
event id" with `register(event)` / `unregister(event_id)` operations. -/
abbrev Registry := List ScEvent

/-- Modelled from the spec: `session.set_event` registers a subscription into the
registry, keyed by its id (replacing any previous entry with the same id). -/
def set_event (e : ScEvent) (reg : Registry) : Registry :=
  e :: reg.filter (fun x => x.id ≠ e.id)

/-- Modelled from the spec: `session.drop_event` unregisters the entry with the
given id from the registry (a no-op when the id is not registered). -/
def drop_event (id : ScValue) (reg : Registry) : Registry :=
  reg.filter (fun x => x.id ≠ id)

/-- `true` iff the registry holds an entry keyed by `id`. -/
def regHas (id : ScValue) (reg : Registry) : Bool :=
  reg.any (fun e => e.id = id)

/-!  The per-command decoders (`BaseResponseProcessor.__call__` overrides). -/

/-- `CreateElementsResponseProcessor.__call__`:
`[ScAddr(addr_value) for addr_value in response.get(common.PAYLOAD)]`. -/
def CreateElementsResponseProcessor (response : Response) :
    Except DecodeError (List ScAddr) := do
  let vals ← iterateOpt response.payload
  pure (vals.map ScAddr.mk)

/-- `CheckElementsResponseProcessor.__call__`:
`[ScType(type_value) for type_value in response.get(common.PAYLOAD)]`. -/
def CheckElementsResponseProcessor (response : Response) :
    Except DecodeError (List ScType) := do
  let vals ← iterateOpt response.payload
  pure (vals.map ScType.mk)

/-- `DeleteElementsResponseProcessor.__call__`: `return response.get(common.STATUS)`. -/
def DeleteElementsResponseProcessor (response : Response) : Except DecodeError Bool :=
  .ok response.status

/-- `SetLinkContentResponseProcessor.__call__`: `return response.get(common.STATUS)`. -/
def SetLinkContentResponseProcessor (response : Response) : Except DecodeError Bool :=
  .ok response.status

/-- `GetLinkContentResponseProcessor.__call__`: reads `payload[0]`, maps its string
`type` tag to a content kind (defaulting to the undefined kind 0), and wraps the
`value` field untransformed. -/
def GetLinkContentResponseProcessor (response : Response) :
    Except DecodeError ScLinkContent := do
  let response_payload ← subscriptOpt response.payload 0
  let str_type ← dictGet response_payload common.TYPE
  let content_type : ScLinkContentType :=
    if str_type = some (.str common.STRING) then .string
    else if str_type = some (.str common.INT) then .int
    else if str_type = some (.str common.BINARY) then .binary
    else if str_type = some (.str common.FLOAT) then .float
    else .undefined
  let value ← dictGet response_payload common.VALUE
  pure ⟨value, content_type⟩

/-- Result of the links-by-content decoder: either the decoded nested address lists,
or — on the falsy-payload path — the raw payload value returned unchanged. -/
inductive LinksByContentResult where
  | decoded (xss : List (List ScAddr))
  | raw (payload : Option ScValue)
deriving Repr, DecidableEq

/-- `GetLinksByContentResponseProcessor.__call__`: when the payload is truthy, decode
it as a list of lists of addresses; otherwise return the falsy payload unchanged. -/
def GetLinksByContentResponseProcessor (response : Response) :
    Except DecodeError LinksByContentResult :=
  if optTruthy response.payload then do
    let addr_lists ← iterateOpt response.payload
    let xss ← mapE iterateV addr_lists
    pure (.decoded (xss.map (fun xs => xs.map ScAddr.mk)))
  else
    .ok (.raw response.payload)

/-- Result of the resolve-keynodes decoder: either the decoded address list, or —
on the falsy-payload path — the WHOLE response envelope (`return response`). -/
inductive ResolveKeynodesResult where
  | addrs (xs : List ScAddr)
  | envelope (r : Response)
deriving Repr, DecidableEq

/-- `ResolveKeynodesResponseProcessor.__call__`: when the payload is truthy, decode it
as a list of addresses; otherwise `return response` — the whole envelope object. -/
def ResolveKeynodesResponseProcessor (response : Response) :
    Except DecodeError ResolveKeynodesResult :=
  if optTruthy response.payload then do
    let vals ← iterateOpt response.payload
    pure (.addrs (vals.map ScAddr.mk))
  else
    .ok (.envelope response)

/-- `TemplateSearchResponseProcessor.__call__`: when the status flag is set, build one
`ScTemplateResult` per inner list of the payload's `addrs` field, all sharing the
payload's `aliases` field; when the status flag is unset, return `[]` without touching
the payload. -/
def TemplateSearchResponseProcessor (response : Response) :
    Except DecodeError (List ScTemplateResult) :=
  if response.status then do
    let aliases ← dictGetOpt response.payload common.ALIASES
    let all_addrs ← dictGetOpt response.payload common.ADDRS
    let addr_lists ← iterateOpt all_addrs
    let results ← mapE (fun addrs_list => do
      let addrs ← iterateV addrs_list
      pure (ScTemplateResult.mk (addrs.map ScAddr.mk) aliases)) addr_lists
    pure results
  else
    .ok []

/-- `TemplateGenerateResponseProcessor.__call__`: like search but yields at most one
result (`None` when the status flag is unset). -/
def TemplateGenerateResponseProcessor (response : Response) :
    Except DecodeError (Option ScTemplateResult) :=
  if response.status then do
    let aliases ← dictGetOpt response.payload common.ALIASES
    let addrs_list ← dictGetOpt response.payload common.ADDRS
    let addrs ← iterateOpt addrs_list
    pure (some (ScTemplateResult.mk (addrs.map ScAddr.mk) aliases))
  else
    .ok none

/-- The loop of `EventsCreateResponseProcessor.__call__`: for the descriptor at
position `count`, read `response.get(common.PAYLOAD)[count]`, build the subscription,
register it, and continue. On a Python exception the loop stops, keeping the
registrations already performed (the side effects persist past the raised error). -/
def eventsCreateLoop (payload : Option ScValue) :
    List ScEvent → Nat → Registry → Except DecodeError (List ScEvent) × Registry
  | [], _, reg => (.ok [], reg)
  | event :: rest, count, reg =>
    match subscriptOpt payload count with
    | .error e => (.error e, reg)
    | .ok command_id =>
      let sc_event : ScEvent := ⟨command_id, event.event_type, event.callback⟩
      let reg' := set_event sc_event reg
      match eventsCreateLoop payload rest (count + 1) reg' with
      | (.ok tail, regF) => (.ok (sc_event :: tail), regF)
      | (.error e, regF) => (.error e, regF)

/-- `EventsCreateResponseProcessor.__call__`: positionally pair each submitted event
descriptor with the acknowledged id `payload[count]`, register each new subscription
into the registry, and return them in submission order. -/
def EventsCreateResponseProcessor (response : Response) (events : List ScEvent)
    (reg : Registry) : Except DecodeError (List ScEvent) × Registry :=
  eventsCreateLoop response.payload events 0 reg

/-- `EventsDestroyResponseProcessor.__call__`: drop every descriptor's id from the
registry, then return the envelope's status flag. -/
def EventsDestroyResponseProcessor (response : Response) (events : List ScEvent)
    (reg : Registry) : Bool × Registry :=
  (response.status, events.foldl (fun rg e => drop_event e.id rg) reg)

/-- The subscription list a fully successful events-create decode returns: the i-th
acknowledged id paired with the i-th descriptor's event type and callback. -/
def mkEvents (ids : List ScValue) (events : List ScEvent) : List ScEvent :=
  List.zipWith (fun cid e => ⟨cid, e.event_type, e.callback⟩) ids events

/-!  Trace semantics for the event registry: a step is one invocation of the
events-create or events-destroy decoder, and a trace is a list of steps run in
order against the process-wide registry, starting from the empty registry. -/

/-- One invocation of an event decoder, with its envelope and request-context
descriptors. -/
inductive DecodeStep where
  | create (r : Response) (events : List ScEvent)
  | destroy (r : Response) (events : List ScEvent)
deriving Repr, DecidableEq

/-- The registry left behind by one decoder invocation (whether or not the create
decode raises: registrations performed before a raise persist). -/
def stepReg (reg : Registry) : DecodeStep → Registry
  | .create r events => (EventsCreateResponseProcessor r events reg).2
  | .destroy r events => (EventsDestroyResponseProcessor r events reg).2

/-- The registry after running a trace of decoder steps from the empty registry. -/
def registryAfter (tr : List DecodeStep) : Registry :=
  tr.foldl stepReg []

/-- The decode result of a create invocation. The returned value is independent of
the registry the decoder runs against, so it is taken at the empty registry. -/
def createResult (r : Response) (events : List ScEvent) :
    Except DecodeError (List ScEvent) :=
  (EventsCreateResponseProcessor r events []).1

/-- The step is a create whose decode returns normally with `ev` among the returned
subscriptions. -/
def stepReturnsEvent (s : DecodeStep) (ev : ScEvent) : Prop :=
  match s with
  | .create r events => ∃ out, createResult r events = .ok out ∧ ev ∈ out
  | .destroy _ _ => False

/-- The step is a create whose decode returns normally with a subscription whose id
is `id` among the returned subscriptions. -/
def stepReturnsId (s : DecodeStep) (id : ScValue) : Prop :=
  match s with
  | .create r events => ∃ out, createResult r events = .ok out ∧ ∃ e ∈ out, e.id = id
  | .destroy _ _ => False

/-- The step is a destroy invocation one of whose descriptors carries `id` (its run
unregisters `id`). -/
def stepDestroysId (s : DecodeStep) (id : ScValue) : Prop :=
  match s with
  | .create _ _ => False
  | .destroy _ events => ∃ e ∈ events, e.id = id

/-- The step's decode does not raise (destroy decodes never raise; a create decode
returns normally). -/
def stepOk : DecodeStep → Prop
  | .create r events => ∃ out, createResult r events = .ok out
  | .destroy _ _ => True

/-- The registry entry `ev` is locally known: some create step of the trace returned
it as a subscription object. -/
def knownEntry (tr : List DecodeStep) (ev : ScEvent) : Prop :=
  ∃ pre s post, tr = pre ++ s :: post ∧ stepReturnsEvent s ev

/-- The id is alive at the end of the trace: some create step of the trace returned
a subscription carrying it, and no later step of the trace destroyed it. -/
def aliveAt (tr : List DecodeStep) (id : ScValue) : Prop :=
  ∃ pre s post, tr = pre ++ s :: post ∧ stepReturnsId s id ∧
    ∀ s' ∈ post, ¬ stepDestroysId s' id

/-- The registry invariant claimed by the spec, over a whole trace: (1) every entry
the registry holds was returned by some create step of the trace (no id without a
locally-known subscription object), and (2) an id is registered exactly when some
create step of the trace returned it and no later step destroyed it — i.e. exactly
during the interval from its create-decoder's return to its destroy-decoder's run. -/
def registryInvariant (tr : List DecodeStep) : Prop :=
  (∀ ev ∈ registryAfter tr, knownEntry tr ev) ∧
  (∀ id : ScValue, regHas id (registryAfter tr) = true ↔ aliveAt tr id)

/-!  Concrete wire examples (the spec's worked examples). -/

/-- The spec's event-creation example: acknowledgement payload `[101, 102]`. -/
def sampleAckResponse : Response := ⟨true, some (.list [.int 101, .int 102])⟩

/-- Two submitted event descriptors, as request context. -/
def sampleDescriptors : List ScEvent := [⟨.int 0, 1, 11⟩, ⟨.int 0, 2, 22⟩]

/-!  Reduction lemmas for the error monad. -/

@[simp] theorem ok_bind (x : α) (f : α → Except ε β) :
    (Except.ok x : Except ε α) >>= f = f x := rfl

@[simp] theorem error_bind (e : ε) (f : α → Except ε β) :
    (Except.error e : Except ε α) >>= f = .error e := rfl

/-!  Helper lemmas about the registry operations. -/

theorem regHas_iff (id : ScValue) (reg : Registry) :
    regHas id reg = true ↔ ∃ e ∈ reg, e.id = id := by
  simp [regHas, List.any_eq_true]

theorem mem_set_event {x e : ScEvent} {reg : Registry} :
    x ∈ set_event e reg ↔ x = e ∨ (x ∈ reg ∧ x.id ≠ e.id) := by
  simp [set_event, List.mem_filter]

theorem mem_drop_event {x : ScEvent} {id : ScValue} {reg : Registry} :
    x ∈ drop_event id reg ↔ x ∈ reg ∧ x.id ≠ id := by
  simp [drop_event, List.mem_filter]

theorem regHas_set_event (id : ScValue) (e : ScEvent) (reg : Registry) :
    regHas id (set_event e reg) = true ↔ id = e.id ∨ regHas id reg = true := by
  simp only [regHas_iff]
  constructor
  · rintro ⟨x, hx, hid⟩
    rcases mem_set_event.mp hx with rfl | ⟨hmem, -⟩
    · exact Or.inl hid.symm
    · exact Or.inr ⟨x, hmem, hid⟩
  · rintro (rfl | ⟨x, hmem, hid⟩)
    · exact ⟨e, mem_set_event.mpr (Or.inl rfl), rfl⟩
    · by_cases hcase : x.id = e.id
      · exact ⟨e, mem_set_event.mpr (Or.inl rfl), by rw [← hid, hcase]⟩
      · exact ⟨x, mem_set_event.mpr (Or.inr ⟨hmem, hcase⟩), hid⟩

theorem regHas_drop_event (id k : ScValue) (reg : Registry) :
    regHas id (drop_event k reg) = true ↔ regHas id reg = true ∧ id ≠ k := by
  simp only [regHas_iff]
  constructor
  · rintro ⟨x, hx, hid⟩
    rcases mem_drop_event.mp hx with ⟨hmem, hne⟩
    exact ⟨⟨x, hmem, hid⟩, by rw [← hid]; exact hne⟩
  · rintro ⟨⟨x, hmem, hid⟩, hne⟩
    exact ⟨x, mem_drop_event.mpr ⟨hmem, by rw [hid]; exact hne⟩, hid⟩

theorem mem_foldl_set_event (out : List ScEvent) (reg : Registry) (x : ScEvent) :
    x ∈ out.foldl (fun rg e => set_event e rg) reg → x ∈ out ∨ x ∈ reg := by
  induction out generalizing reg with
  | nil => intro h; exact Or.inr h
  | cons e rest ih =>
      intro h
      rcases ih (set_event e reg) h with h1 | h1
      · exact Or.inl (List.mem_cons_of_mem e h1)
      · rcases mem_set_event.mp h1 with rfl | ⟨h2, -⟩
        · exact Or.inl (List.mem_cons_self x rest)
        · exact Or.inr h2

theorem regHas_foldl_set_event_mono (out : List ScEvent) (reg : Registry) (id : ScValue)
    (h : regHas id reg = true) :
    regHas id (out.foldl (fun rg e => set_event e rg) reg) = true := by
  induction out generalizing reg with
  | nil => exact h
  | cons e rest ih =>
      exact ih (set_event e reg) ((regHas_set_event id e reg).mpr (Or.inr h))

theorem regHas_foldl_set_event_of_mem (out : List ScEvent) (reg : Registry) {e : ScEvent}
    (h : e ∈ out) :
    regHas e.id (out.foldl (fun rg x => set_event x rg) reg) = true := by
  induction out generalizing reg with
  | nil => cases h
  | cons x rest ih =>
      rcases List.mem_cons.mp h with rfl | hmem
      · exact regHas_foldl_set_event_mono rest (set_event e reg) e.id
          ((regHas_set_event e.id e reg).mpr (Or.inl rfl))
      · exact ih (set_event x reg) hmem

theorem regHas_foldl_drop (events : List ScEvent) (reg : Registry) (id : ScValue) :
    regHas id (events.foldl (fun rg e => drop_event e.id rg) reg) = true ↔
      regHas id reg = true ∧ ∀ e ∈ events, e.id ≠ id := by
  induction events generalizing reg with
  | nil => simp
  | cons e rest ih =>
      rw [List.foldl_cons, ih (drop_event e.id reg), regHas_drop_event]
      constructor
      · rintro ⟨⟨h1, h2⟩, h3⟩
        refine ⟨h1, ?_⟩
        intro x hx
        rcases List.mem_cons.mp hx with rfl | hmem
        · exact fun hc => h2 hc.symm
        · exact h3 x hmem
      · rintro ⟨h1, h2⟩
        exact ⟨⟨h1, fun hc => h2 e (List.mem_cons_self e rest) hc.symm⟩,
          fun x hx => h2 x (List.mem_cons_of_mem e hx)⟩

theorem mem_foldl_drop (events : List ScEvent) (reg : Registry) (x : ScEvent) :
    x ∈ events.foldl (fun rg e => drop_event e.id rg) reg → x ∈ reg := by
  induction events generalizing reg with
  | nil => intro h; exact h
  | cons e rest ih =>
      intro h
      exact (mem_drop_event.mp (ih (drop_event e.id reg) h)).1

/-!  Helper lemmas about the events-create loop. -/

theorem eventsCreateLoop_fst_indep (payload : Option ScValue) (events : List ScEvent)
    (count : Nat) (reg reg' : Registry) :
    (eventsCreateLoop payload events count reg).1
      = (eventsCreateLoop payload events count reg').1 := by
  induction events generalizing count reg reg' with
  | nil => rfl
  | cons e rest ih =>
      rw [eventsCreateLoop, eventsCreateLoop]
      cases hsub : subscriptOpt payload count with
      | error err => rfl
      | ok cid =>
          have h := ih (count + 1) (set_event ⟨cid, e.event_type, e.callback⟩ reg)
            (set_event ⟨cid, e.event_type, e.callback⟩ reg')
          rcases hA : eventsCreateLoop payload rest (count + 1)
            (set_event ⟨cid, e.event_type, e.callback⟩ reg) with ⟨resA, regA⟩
          rcases hB : eventsCreateLoop payload rest (count + 1)
            (set_event ⟨cid, e.event_type, e.callback⟩ reg') with ⟨resB, regB⟩
          rw [hA, hB] at h
          simp only at h
          simp only [hA, hB, h]
          cases resB <;> rfl

theorem eventsCreateLoop_ok (ids : List ScValue) (events : List ScEvent) (count : Nat)
    (reg : Registry) (h : count + events.length ≤ ids.length) :
    eventsCreateLoop (some (.list ids)) events count reg =
      (.ok (mkEvents (ids.drop count) events),
        (mkEvents (ids.drop count) events).foldl (fun rg e => set_event e rg) reg) := by
  induction events generalizing count reg with
  | nil => simp [eventsCreateLoop, mkEvents]
  | cons e rest ih =>
      have hc : count < ids.length := by
        simp only [List.length_cons] at h
        omega
      have hsub : subscriptOpt (some (.list ids)) count = .ok ids[count] := by
        simp [subscriptOpt, hc]
      rw [eventsCreateLoop, hsub]
      dsimp only
      rw [ih (count + 1) (set_event ⟨ids[count], e.event_type, e.callback⟩ reg)
        (by simp only [List.length_cons] at h; omega)]
      have hdrop : ids.drop count = ids[count] :: ids.drop (count + 1) :=
        List.drop_eq_getElem_cons hc
      rw [mkEvents, mkEvents, hdrop, List.zipWith_cons_cons, List.foldl_cons]

/-!  Claim theorems. -/

/-- C9: for every sequence of raw numeric ids in a create-elements payload, the
decoded Element Address sequence has the same length and order, and reading back each
decoded address's underlying value yields the original raw id at that position. -/
theorem createElements_roundtrip (status : Bool) (ids : List Int) :
    ∃ out, CreateElementsResponseProcessor ⟨status, some (.list (ids.map ScValue.int))⟩
        = .ok out ∧
      out.length = ids.length ∧ out.map ScAddr.value = ids.map ScValue.int := by
  refine ⟨(ids.map ScValue.int).map ScAddr.mk, ?_, by simp, ?_⟩
  · simp [CreateElementsResponseProcessor, iterateOpt, iterateV]
  · simp [List.map_map]

/-- C1 (divergence witness): on an empty or absent payload the resolve-keynodes
decoder returns the WHOLE response envelope (`return response`), not the empty/absent
payload value, so the caller cannot detect "zero keynodes resolved" from an empty
returned sequence. -/
theorem resolveKeynodes_falsy_returns_envelope :
    ResolveKeynodesResponseProcessor ⟨true, some (.list [])⟩
        = .ok (.envelope ⟨true, some (.list [])⟩) ∧
      ResolveKeynodesResponseProcessor ⟨true, none⟩ = .ok (.envelope ⟨true, none⟩) := by
  decide

/-- C2 (divergence witness): with two submitted descriptors and a one-element
acknowledgement payload, the events-create decoder performs the unchecked
`response.get(common.PAYLOAD)[count]` and fails with an out-of-range indexing error
(Python `IndexError`) — after already registering the first subscription — rather
than failing with an explicit protocol-violation error. -/
theorem eventsCreate_short_ack_index_error :
    EventsCreateResponseProcessor ⟨true, some (.list [.int 101])⟩ sampleDescriptors []
      = (.error .indexError, [⟨.int 101, 1, 11⟩]) := by
  decide

/-- C6: every events-destroy decode unregisters every descriptor's id from the
registry unconditionally — whatever the status flag — and returns the envelope's
status flag as its result. -/
theorem eventsDestroy_unregisters_all (r : Response) (events : List ScEvent)
    (reg : Registry) :
    (EventsDestroyResponseProcessor r events reg).1 = r.status ∧
    ∀ e ∈ events, regHas e.id (EventsDestroyResponseProcessor r events reg).2 = false := by
  refine ⟨rfl, ?_⟩
  intro e he
  have hnot : ¬ (regHas e.id
      (events.foldl (fun rg x => drop_event x.id rg) reg) = true) := by
    rw [regHas_foldl_drop]
    rintro ⟨-, hall⟩
    exact hall e he rfl
  simpa using hnot

/-- C6 witness: destroying ids 101 and 102 with `status = false` removes both from
the registry and the decoder returns `false`. -/
theorem eventsDestroy_unregisters_all_witness :
    (EventsDestroyResponseProcessor ⟨false, none⟩
        [⟨.int 101, 1, 11⟩, ⟨.int 102, 2, 22⟩]
        [⟨.int 101, 1, 11⟩, ⟨.int 102, 2, 22⟩]).1 = false ∧
    regHas (.int 101) (EventsDestroyResponseProcessor ⟨false, none⟩
        [⟨.int 101, 1, 11⟩, ⟨.int 102, 2, 22⟩]
        [⟨.int 101, 1, 11⟩, ⟨.int 102, 2, 22⟩]).2 = false ∧
    regHas (.int 102) (EventsDestroyResponseProcessor ⟨false, none⟩
        [⟨.int 101, 1, 11⟩, ⟨.int 102, 2, 22⟩]
        [⟨.int 101, 1, 11⟩, ⟨.int 102, 2, 22⟩]).2 = false := by
  obtain ⟨h1, h2⟩ := eventsDestroy_unregisters_all ⟨false, none⟩
    [⟨.int 101, 1, 11⟩, ⟨.int 102, 2, 22⟩] [⟨.int 101, 1, 11⟩, ⟨.int 102, 2, 22⟩]
  exact ⟨h1, h2 ⟨.int 101, 1, 11⟩ (by simp), h2 ⟨.int 102, 2, 22⟩ (by simp)⟩

/-- C7: an events-create decode with N descriptors and at least N acknowledged ids
returns N subscriptions in submission order — the i-th pairing the i-th acknowledged
id with the i-th descriptor's event type and callback — and every returned
subscription's id becomes registered. -/
theorem eventsCreate_success_spec (r : Response) (ids : List ScValue)
    (events : List ScEvent) (reg : Registry)
    (hp : r.payload = some (.list ids)) (h : events.length ≤ ids.length) :
    ∃ out, EventsCreateResponseProcessor r events reg
        = (.ok out, out.foldl (fun rg e => set_event e rg) reg) ∧
      out.length = events.length ∧
      (∀ i, i < events.length → ∃ cid e, ids[i]? = some cid ∧ events[i]? = some e ∧
          out[i]? = some ⟨cid, e.event_type, e.callback⟩) ∧
      (∀ e ∈ out, regHas e.id (EventsCreateResponseProcessor r events reg).2 = true) := by
  have hrun : EventsCreateResponseProcessor r events reg =
      (.ok (mkEvents ids events),
        (mkEvents ids events).foldl (fun rg e => set_event e rg) reg) := by
    unfold EventsCreateResponseProcessor
    rw [hp, eventsCreateLoop_ok ids events 0 reg (by omega), List.drop_zero]
  refine ⟨mkEvents ids events, hrun, ?_, ?_, ?_⟩
  · rw [mkEvents, List.length_zipWith]
    omega
  · intro i hi
    have hi2 : i < ids.length := lt_of_lt_of_le hi h
    refine ⟨ids[i], events[i], List.getElem?_eq_getElem hi2, List.getElem?_eq_getElem hi, ?_⟩
    rw [mkEvents]
    exact List.getElem?_zipWith_eq_some.mpr
      ⟨ids[i], events[i], List.getElem?_eq_getElem hi2, List.getElem?_eq_getElem hi, rfl⟩
  · intro e he
    rw [hrun]
    exact regHas_foldl_set_event_of_mem (mkEvents ids events) reg he

/-- C7 witness: the spec's example — two descriptors acknowledged with `[101, 102]`. -/
theorem eventsCreate_success_spec_witness :
    sampleAckResponse.payload = some (.list [.int 101, .int 102]) ∧
    sampleDescriptors.length ≤ ([.int 101, .int 102] : List ScValue).length ∧
    (∃ out, EventsCreateResponseProcessor sampleAckResponse sampleDescriptors []
        = (.ok out, out.foldl (fun rg e => set_event e rg) []) ∧
      out.length = sampleDescriptors.length ∧
      (∀ i, i < sampleDescriptors.length →
          ∃ cid e, ([.int 101, .int 102] : List ScValue)[i]? = some cid ∧
            sampleDescriptors[i]? = some e ∧
            out[i]? = some ⟨cid, e.event_type, e.callback⟩) ∧
      (∀ e ∈ out, regHas e.id
          (EventsCreateResponseProcessor sampleAckResponse sampleDescriptors []).2 = true)) :=
  ⟨rfl, by decide,
    eventsCreate_success_spec sampleAckResponse [.int 101, .int 102] sampleDescriptors []
      rfl (by decide)⟩

/-- Mapping a fallible body over a list of wire lists succeeds elementwise when the
body succeeds on every wire list. -/
theorem mapE_over_map_list {β : Type} {f : ScValue → Except DecodeError β}
    {g : List ScValue → β} (xss : List (List ScValue))
    (h : ∀ xs, f (ScValue.list xs) = .ok (g xs)) :
    mapE f (xss.map ScValue.list) = .ok (xss.map g) := by
  induction xss with
  | nil => rfl
  | cons xs rest ih =>
      simp only [List.map_cons, mapE, h, ok_bind, ih]
      rfl

/-- Mapping `iterateV` over a list of wire lists succeeds and strips the `list`
constructor from each element. -/
theorem mapE_iterateV_map_list (xss : List (List ScValue)) :
    mapE iterateV (xss.map ScValue.list) = Except.ok xss := by
  have h := mapE_over_map_list (f := iterateV) (g := fun xs => xs) xss (fun xs => rfl)
  simpa using h

/-- C8: the links-by-content decoder passes an empty or absent payload through
unchanged (as the raw falsy value, not an empty typed sequence), and decodes every
non-empty well-formed payload into the mirrored nested address lists, in order. -/
theorem getLinksByContent_spec (r : Response) :
    (optTruthy r.payload = false →
      GetLinksByContentResponseProcessor r = .ok (.raw r.payload)) ∧
    (∀ xss : List (List ScValue), r.payload = some (.list (xss.map ScValue.list)) →
      xss ≠ [] →
      GetLinksByContentResponseProcessor r
        = .ok (.decoded (xss.map (fun xs => xs.map ScAddr.mk)))) := by
  constructor
  · intro hf
    simp [GetLinksByContentResponseProcessor, hf]
  · intro xss hp hne
    have ht : optTruthy (some (ScValue.list (xss.map ScValue.list))) = true := by
      cases xss with
      | nil => exact absurd rfl hne
      | cons x rest => simp [optTruthy, ScValue.truthy]
    simp [GetLinksByContentResponseProcessor, ht, hp, iterateOpt, iterateV,
      mapE_iterateV_map_list]

/-- C8 witness: an empty-list payload passes through raw; a two-inner-list payload
decodes to the mirrored nested structure. -/
theorem getLinksByContent_spec_witness :
    (optTruthy (some (ScValue.list [])) = false ∧
      GetLinksByContentResponseProcessor ⟨true, some (.list [])⟩
        = .ok (.raw (some (.list [])))) ∧
    (GetLinksByContentResponseProcessor
        ⟨true, some (.list [.list [.int 1, .int 2], .list [.int 3]])⟩
      = .ok (.decoded [[⟨.int 1⟩, ⟨.int 2⟩], [⟨.int 3⟩]])) :=
  ⟨⟨by decide, (getLinksByContent_spec ⟨true, some (.list [])⟩).1 (by decide)⟩,
    (getLinksByContent_spec ⟨true, some (.list [.list [.int 1, .int 2], .list [.int 3]])⟩).2
      [[.int 1, .int 2], [.int 3]] rfl (by decide)⟩

/-- C5: the template-search decoder returns the empty sequence whenever the status
flag is unset, whatever the payload holds; with the status flag set it returns one
Template Result per inner list of the payload's `addrs` field, in order, each
sharing the payload's single `aliases` mapping. -/
theorem templateSearch_spec (r : Response) :
    (r.status = false → TemplateSearchResponseProcessor r = .ok []) ∧
    (∀ (fs : List (String × ScValue)) (xss : List (List ScValue)),
      r.status = true → r.payload = some (.dict fs) →
      lookupField fs common.ADDRS = some (.list (xss.map ScValue.list)) →
      TemplateSearchResponseProcessor r = .ok (xss.map (fun xs =>
        ScTemplateResult.mk (xs.map ScAddr.mk) (lookupField fs common.ALIASES)))) := by
  constructor
  · intro hf
    simp [TemplateSearchResponseProcessor, hf]
  · intro fs xss hs hp haddrs
    simp only [TemplateSearchResponseProcessor, hs, if_true, hp, dictGetOpt, dictGet,
      haddrs, iterateOpt, iterateV, ok_bind, bind_pure]
    apply mapE_over_map_list
    intro xs
    rfl

/-- C5 witness: a false-status envelope with a malformed payload yields `[]`; the
spec's example payload (`aliases={"x":0}`, `addrs=[[10,20],[30,40]]`) yields two
results sharing the aliases mapping. -/
theorem templateSearch_spec_witness :
    TemplateSearchResponseProcessor ⟨false, some (.int 42)⟩ = .ok [] ∧
    TemplateSearchResponseProcessor
        ⟨true, some (.dict [("aliases", .dict [("x", .int 0)]),
          ("addrs", .list [.list [.int 10, .int 20], .list [.int 30, .int 40]])])⟩
      = .ok [⟨[⟨.int 10⟩, ⟨.int 20⟩], some (.dict [("x", .int 0)])⟩,
          ⟨[⟨.int 30⟩, ⟨.int 40⟩], some (.dict [("x", .int 0)])⟩] :=
  ⟨(templateSearch_spec ⟨false, some (.int 42)⟩).1 rfl,
    ((templateSearch_spec _).2
      [("aliases", .dict [("x", .int 0)]),
        ("addrs", .list [.list [.int 10, .int 20], .list [.int 30, .int 40]])]
      [[.int 10, .int 20], [.int 30, .int 40]] rfl rfl rfl).trans (by decide)⟩

/-- C4: when the first payload element carries a string type tag, the link-content
decoder maps "string"/"int"/"binary"/"float" to the corresponding content kind, any
other tag to the undefined kind (0) without failing, and passes the element's value
field through untransformed. -/
theorem getLinkContent_tag_mapping (r : Response) (fs : List (String × ScValue))
    (rest : List ScValue) (t : String)
    (hp : r.payload = some (.list (.dict fs :: rest)))
    (ht : lookupField fs common.TYPE = some (.str t)) :
    ∃ k, GetLinkContentResponseProcessor r = .ok ⟨lookupField fs common.VALUE, k⟩ ∧
      (t = common.STRING → k = .string) ∧
      (t = common.INT → k = .int) ∧
      (t = common.BINARY → k = .binary) ∧
      (t = common.FLOAT → k = .float) ∧
      (t ≠ common.STRING → t ≠ common.INT → t ≠ common.BINARY → t ≠ common.FLOAT →
        k = .undefined) := by
  refine ⟨if t = common.STRING then .string else if t = common.INT then .int
      else if t = common.BINARY then .binary else if t = common.FLOAT then .float
      else .undefined, ?_, ?_, ?_, ?_, ?_, ?_⟩
  · have hsub : subscriptOpt r.payload 0 = .ok (.dict fs) := by rw [hp]; simp [subscriptOpt]
    simp only [GetLinkContentResponseProcessor, hsub, ok_bind, dictGet, ht]
    simp only [Option.some.injEq, ScValue.str.injEq]
    rfl
  · intro h
    simp [h]
  · intro h
    subst h
    decide
  · intro h
    subst h
    decide
  · intro h
    subst h
    decide
  · intro h1 h2 h3 h4
    simp [h1, h2, h3, h4]

/-- C4 witness: an unknown tag (`"unknown_tag"`) decodes without failure to the
undefined kind, value passed through. -/
theorem getLinkContent_tag_mapping_witness :
    (⟨false, some (.list [.dict [("type", .str "unknown_tag"), ("value", .int 3)]])⟩
        : Response).payload
      = some (.list [.dict [("type", .str "unknown_tag"), ("value", .int 3)]]) ∧
    lookupField [("type", .str "unknown_tag"), ("value", .int 3)] common.TYPE
      = some (.str "unknown_tag") ∧
    (∃ k, GetLinkContentResponseProcessor
        ⟨false, some (.list [.dict [("type", .str "unknown_tag"), ("value", .int 3)]])⟩
        = .ok ⟨lookupField [("type", .str "unknown_tag"), ("value", .int 3)] common.VALUE,
            k⟩ ∧
      ("unknown_tag" = common.STRING → k = .string) ∧
      ("unknown_tag" = common.INT → k = .int) ∧
      ("unknown_tag" = common.BINARY → k = .binary) ∧
      ("unknown_tag" = common.FLOAT → k = .float) ∧
      ("unknown_tag" ≠ common.STRING → "unknown_tag" ≠ common.INT →
        "unknown_tag" ≠ common.BINARY → "unknown_tag" ≠ common.FLOAT →
        k = .undefined)) :=
  ⟨rfl, rfl,
    getLinkContent_tag_mapping
      ⟨false, some (.list [.dict [("type", .str "unknown_tag"), ("value", .int 3)]])⟩
      [("type", .str "unknown_tag"), ("value", .int 3)] [] "unknown_tag" rfl rfl⟩

/-- C10: the link-content decoder's output depends only on the `type` and `value`
fields of the first payload element — two envelopes agreeing there (whatever their
status flags and any further payload elements) decode identically. -/
theorem getLinkContent_noninterference (r1 r2 : Response) (p1 p2 : ScValue)
    (rest1 rest2 : List ScValue)
    (h1 : r1.payload = some (.list (p1 :: rest1)))
    (h2 : r2.payload = some (.list (p2 :: rest2)))
    (ht : dictGet p1 common.TYPE = dictGet p2 common.TYPE)
    (hv : dictGet p1 common.VALUE = dictGet p2 common.VALUE) :
    GetLinkContentResponseProcessor r1 = GetLinkContentResponseProcessor r2 := by
  have s1 : subscriptOpt r1.payload 0 = .ok p1 := by rw [h1]; simp [subscriptOpt]
  have s2 : subscriptOpt r2.payload 0 = .ok p2 := by rw [h2]; simp [subscriptOpt]
  simp only [GetLinkContentResponseProcessor, s1, s2, ok_bind, ht, hv]

/-- C10 witness: two envelopes with opposite status flags, different trailing payload
elements and differently ordered first-element fields — but the same `type`/`value`
fields — decode to the same link content. -/
theorem getLinkContent_noninterference_witness :
    GetLinkContentResponseProcessor
        ⟨true, some (.list [.dict [("type", .str "int"), ("value", .int 7)]])⟩
      = GetLinkContentResponseProcessor
        ⟨false, some (.list [.dict [("value", .int 7), ("type", .str "int")],
          .str "extra"])⟩ :=
  getLinkContent_noninterference
    ⟨true, some (.list [.dict [("type", .str "int"), ("value", .int 7)]])⟩
    ⟨false, some (.list [.dict [("value", .int 7), ("type", .str "int")], .str "extra"])⟩
    (.dict [("type", .str "int"), ("value", .int 7)])
    (.dict [("value", .int 7), ("type", .str "int")])
    [] [.str "extra"] rfl rfl (by decide) (by decide)

/-!  Trace lemmas for the registry invariant. -/

/-- A successful create loop returns some list `out` and leaves behind exactly the
registrations of `out`, in order, whatever the payload's shape. -/
theorem eventsCreateLoop_ok_shape (payload : Option ScValue) :
    ∀ (events : List ScEvent) (count : Nat) (reg : Registry) (out : List ScEvent),
    (eventsCreateLoop payload events count reg).1 = .ok out →
    eventsCreateLoop payload events count reg
      = (.ok out, out.foldl (fun rg e => set_event e rg) reg)
  | [], _, reg, out, h => by
      simp only [eventsCreateLoop] at h ⊢
      obtain rfl : ([] : List ScEvent) = out := by simpa using h
      rfl
  | event :: rest, count, reg, out, h => by
      rw [eventsCreateLoop] at h ⊢
      cases hsub : subscriptOpt payload count with
      | error err => rw [hsub] at h; simp at h
      | ok cid =>
          rw [hsub] at h
          dsimp only at h ⊢
          rcases hrec : eventsCreateLoop payload rest (count + 1)
            (set_event ⟨cid, event.event_type, event.callback⟩ reg) with ⟨res, regF⟩
          rw [hrec] at h
          cases res with
          | error e => simp at h
          | ok tail =>
              simp only at h
              obtain rfl : ⟨cid, event.event_type, event.callback⟩ :: tail = out := by
                simpa using h
              have := eventsCreateLoop_ok_shape payload rest (count + 1)
                (set_event ⟨cid, event.event_type, event.callback⟩ reg) tail
                (by rw [hrec])
              rw [hrec] at this
              simp only [List.foldl_cons]
              rw [(Prod.mk.injEq _ _ _ _).mp this |>.2]

/-- Splitting a snoc list at an element: either the element is the appended one, or
the split lies inside the prefix. -/
theorem append_singleton_split {α : Type} {tr : List α} {s x : α} {pre post : List α}
    (h : tr ++ [s] = pre ++ x :: post) :
    (pre = tr ∧ x = s ∧ post = []) ∨
      (∃ post₂, post = post₂ ++ [s] ∧ tr = pre ++ x :: post₂) := by
  induction post using List.reverseRecOn with
  | nil =>
      obtain ⟨h1, h2⟩ := List.append_inj' h rfl
      exact Or.inl ⟨h1.symm, (List.cons.inj h2.symm).1, rfl⟩
  | append_singleton post₂ p _ =>
      have h' : tr ++ [s] = (pre ++ x :: post₂) ++ [p] := by
        rw [h]
        simp
      obtain ⟨h1, h2⟩ := List.append_inj' h' rfl
      have hsp : s = p := (List.cons.inj h2).1
      exact Or.inr ⟨post₂, by rw [hsp], h1⟩

/-- How aliveness evolves when one more step is appended to the trace. -/
theorem aliveAt_snoc (tr : List DecodeStep) (s : DecodeStep) (id : ScValue) :
    aliveAt (tr ++ [s]) id ↔
      stepReturnsId s id ∨ (aliveAt tr id ∧ ¬ stepDestroysId s id) := by
  constructor
  · rintro ⟨pre, x, post, hsplit, hret, hpost⟩
    rcases append_singleton_split hsplit with ⟨hpre, rfl, rfl⟩ | ⟨post₂, rfl, htr⟩
    · exact Or.inl hret
    · refine Or.inr ⟨⟨pre, x, post₂, htr, hret, ?_⟩, ?_⟩
      · exact fun s' hs' => hpost s' (List.mem_append_left _ hs')
      · exact hpost s (List.mem_append_right _ (List.mem_singleton_self s))
  · rintro (hret | ⟨⟨pre, x, post₂, htr, hret, hpost⟩, hnd⟩)
    · exact ⟨tr, s, [], rfl, hret, by simp⟩
    · refine ⟨pre, x, post₂ ++ [s], by rw [htr]; simp, hret, ?_⟩
      intro s' hs'
      rcases List.mem_append.mp hs' with hmem | hmem
      · exact hpost s' hmem
      · rw [List.mem_singleton.mp hmem]
        exact hnd

/-- An id is registered after a block of registrations iff one of the registered
subscriptions carries it or it was registered before. -/
theorem regHas_foldl_set_event_iff (out : List ScEvent) (reg : Registry) (id : ScValue) :
    regHas id (out.foldl (fun rg e => set_event e rg) reg) = true ↔
      (∃ e ∈ out, e.id = id) ∨ regHas id reg = true := by
  induction out generalizing reg with
  | nil => simp
  | cons e rest ih =>
      rw [List.foldl_cons, ih (set_event e reg), regHas_set_event]
      constructor
      · rintro (hmem | (rfl | hreg))
        · obtain ⟨x, hx, hid⟩ := hmem
          exact Or.inl ⟨x, List.mem_cons_of_mem e hx, hid⟩
        · exact Or.inl ⟨e, List.mem_cons_self e rest, rfl⟩
        · exact Or.inr hreg
      · rintro (⟨x, hx, hid⟩ | hreg)
        · rcases List.mem_cons.mp hx with rfl | hmem
          · exact Or.inr (Or.inl hid.symm)
          · exact Or.inl ⟨x, hmem, hid⟩
        · exact Or.inr (Or.inr hreg)

/-- C3 (counterexample): the registry invariant fails as stated. A create decode of
two descriptors acknowledged by the one-element payload `[101]` raises after having
already registered id 101: the registry then holds 101 although no create decode
ever returned a subscription for it. -/
theorem registryInvariant_counterexample :
    ¬ registryInvariant [.create ⟨true, some (.list [.int 101])⟩ sampleDescriptors] := by
  rintro ⟨-, h2⟩
  have hmem : regHas (.int 101)
      (registryAfter [.create ⟨true, some (.list [.int 101])⟩ sampleDescriptors])
        = true := by
    decide
  have halive := (h2 (.int 101)).mp hmem
  unfold aliveAt at halive
  obtain ⟨pre, s, post, hsplit, hret, -⟩ := halive
  cases pre with
  | cons a as =>
      simp only [List.cons_append, List.cons.injEq] at hsplit
      exact absurd hsplit.2.symm (List.append_ne_nil_of_right_ne_nil as (by simp))
  | nil =>
      simp only [List.nil_append, List.cons.injEq] at hsplit
      obtain ⟨rfl, -⟩ := hsplit
      obtain ⟨out, hok, -⟩ := hret
      have hres : createResult ⟨true, some (.list [.int 101])⟩ sampleDescriptors
          = .error .indexError := by decide
      rw [hres] at hok
      cases hok

/-- C3 (amended): over every trace of event-decoder steps whose create decodes all
return normally, the registry holds exactly the locally-known subscriptions returned
by a create step and not yet covered by a later destroy step. -/
theorem registryInvariant_of_successful_creates :
    ∀ (tr : List DecodeStep), (∀ s ∈ tr, stepOk s) → registryInvariant tr := by
  intro tr
  induction tr using List.reverseRecOn with
  | nil =>
      intro _
      constructor
      · intro ev hev
        simp [registryAfter] at hev
      · intro id
        constructor
        · intro h
          simp [registryAfter, regHas] at h
        · intro h
          unfold aliveAt at h
          obtain ⟨pre, s, post, hsplit, -, -⟩ := h
          have hlen := congrArg List.length hsplit
          simp at hlen
          omega
  | append_singleton tr s ih =>
      intro hok
      obtain ⟨ih1, ih2⟩ := ih (fun x hx => hok x (List.mem_append_left _ hx))
      have hsnoc : ∀ x, registryAfter (tr ++ [x]) = stepReg (registryAfter tr) x := by
        intro x
        rw [registryAfter, registryAfter, List.foldl_append]
        rfl
      cases s with
      | destroy r events =>
          have hreg : registryAfter (tr ++ [.destroy r events])
              = events.foldl (fun rg e => drop_event e.id rg) (registryAfter tr) :=
            hsnoc (.destroy r events)
          constructor
          · intro ev hev
            rw [hreg] at hev
            obtain ⟨pre, x, post, hsplit, hretev⟩ :=
              ih1 ev (mem_foldl_drop events _ ev hev)
            exact ⟨pre, x, post ++ [.destroy r events], by rw [hsplit]; simp, hretev⟩
          · intro id
            rw [hreg, regHas_foldl_drop, ih2 id, aliveAt_snoc]
            simp only [stepReturnsId, stepDestroysId, false_or]
            constructor
            · rintro ⟨halive, hall⟩
              exact ⟨halive, fun hcon => by
                obtain ⟨e, he, hid⟩ := hcon
                exact hall e he hid⟩
            · rintro ⟨halive, hnot⟩
              exact ⟨halive, fun e he hid => hnot ⟨e, he, hid⟩⟩
      | create r events =>
          obtain ⟨out, hout⟩ := hok (.create r events)
            (List.mem_append_right _ (List.mem_singleton_self _))
          have hfst : (eventsCreateLoop r.payload events 0 (registryAfter tr)).1
              = .ok out := by
            rw [eventsCreateLoop_fst_indep r.payload events 0 (registryAfter tr) []]
            exact hout
          have hrun := eventsCreateLoop_ok_shape r.payload events 0 (registryAfter tr)
            out hfst
          have hreg : registryAfter (tr ++ [.create r events])
              = out.foldl (fun rg e => set_event e rg) (registryAfter tr) := by
            rw [hsnoc (.create r events)]
            show (eventsCreateLoop r.payload events 0 (registryAfter tr)).2 = _
            rw [hrun]
          constructor
          · intro ev hev
            rw [hreg] at hev
            rcases mem_foldl_set_event out _ ev hev with hmemout | hmemreg
            · exact ⟨tr, .create r events, [], rfl, ⟨out, hout, hmemout⟩⟩
            · obtain ⟨pre, x, post, hsplit, hretev⟩ := ih1 ev hmemreg
              exact ⟨pre, x, post ++ [.create r events], by rw [hsplit]; simp, hretev⟩
          · intro id
            rw [hreg, regHas_foldl_set_event_iff, ih2 id, aliveAt_snoc]
            simp only [stepReturnsId, stepDestroysId, not_false_iff, and_true]
            constructor
            · rintro (hmem | halive)
              · exact Or.inl ⟨out, hout, hmem⟩
              · exact Or.inr halive
            · rintro (⟨out2, hout2, hmem⟩ | halive)
              · rw [hout] at hout2
                obtain rfl : out = out2 := by
                  injection hout2
                exact Or.inl hmem
              · exact Or.inr halive

/-- C3 witness: a trace of one fully acknowledged create (ids 101, 102) followed by
one destroy of id 101 satisfies the invariant. -/
theorem registryInvariant_of_successful_creates_witness :
    (∀ s ∈ ([.create sampleAckResponse sampleDescriptors,
        .destroy ⟨false, none⟩ [⟨.int 101, 1, 11⟩]] : List DecodeStep), stepOk s) ∧
    registryInvariant [.create sampleAckResponse sampleDescriptors,
        .destroy ⟨false, none⟩ [⟨.int 101, 1, 11⟩]] := by
  have hok : ∀ s ∈ ([.create sampleAckResponse sampleDescriptors,
      .destroy ⟨false, none⟩ [⟨.int 101, 1, 11⟩]] : List DecodeStep), stepOk s := by
    intro s hs
    rcases List.mem_cons.mp hs with rfl | hs2
    · exact ⟨[⟨.int 101, 1, 11⟩, ⟨.int 102, 2, 22⟩], by decide⟩
    · rcases List.mem_cons.mp hs2 with rfl | hs3
      · exact trivial
      · cases hs3
  exact ⟨hok, registryInvariant_of_successful_creates _ hok⟩
